import Mathlib

/-
Verification development for the `envelope` package: a parser for journaled
email envelopes.  The repository holds two near-duplicate versions of the
module:

  * `src/envelope.go`        — embedded below in namespace `Envelope`
  * `src/unnamed/part_000`   — embedded below in namespace `Part000`

Byte strings (Go `string` and `[]byte`) are modelled as Lean `String`s.
The Go standard-library string helpers used by the code (`strings.Split`,
`strings.Contains`, `strings.ToLower`, `strings.TrimPrefix`,
`strings.TrimSuffix`, `strings.SplitN(_, _, 2)`, `bufio.Scanner` with
`ScanLines`) are given executable models first.  External collaborators
(`net/mail`, `go.enmime`, `sha256`, `tika`) are modelled by oracle values
and functions recorded in the input, so a parse run is a pure function of
its input.  `log.Fatalln` terminates the process (`os.Exit(1)`); it is
modelled by a distinguished `processExit` outcome.  A Go runtime panic
(index out of range) is modelled by a distinguished `panic` outcome.
-/

/-! ## Models of the Go string helpers -/

/-- One step list splitter.  `splitAux sep fuel acc rest` scans `rest` for the
next non-overlapping occurrence of `sep`, accumulating the current field in
`acc` (reversed).  Fuel-structured so that it is kernel-reducible; the fuel
`rest.length + 1` supplied by `goSplit` is always enough because every step
consumes at least one character. -/
def splitAux (sep : List Char) : Nat → List Char → List Char → List (List Char)
  | 0, acc, rest => [acc.reverse ++ rest]
  | _ + 1, acc, [] => [acc.reverse]
  | fuel + 1, acc, c :: rest =>
    if sep.isPrefixOf (c :: rest) then
      acc.reverse :: splitAux sep fuel [] ((c :: rest).drop sep.length)
    else
      splitAux sep fuel (c :: acc) rest

/-- Model of Go `strings.Split(s, sep)` for a nonempty separator: split on
every non-overlapping occurrence of `sep`, scanning left to right.  All call
sites in the source pass nonempty separators. -/
def goSplit (s sep : String) : List String :=
  (splitAux sep.data (s.data.length + 1) [] s.data).map List.asString

/-- Scans for an occurrence of `sub` starting at each position. -/
def containsAux (sub : List Char) : List Char → Bool
  | [] => sub.isEmpty
  | c :: rest => sub.isPrefixOf (c :: rest) || containsAux sub rest

/-- Model of Go `strings.Contains(s, sub)`. -/
def goContains (s sub : String) : Bool :=
  containsAux sub.data s.data

/-- Model of Go `strings.ToLower`.  `Char.toLower` lower-cases the basic
latin letters, which matches Go's behaviour on ASCII input (the full Unicode
case table is out of scope; every input in the claims is ASCII). -/
def goToLower (s : String) : String :=
  (s.data.map Char.toLower).asString

/-- Model of Go `strings.TrimPrefix(s, pre)`: drop one leading copy of `pre`
if present. -/
def goTrimPre (s pre : String) : String :=
  if pre.data.isPrefixOf s.data then (s.data.drop pre.data.length).asString else s

/-- Model of Go `strings.TrimSuffix(s, suf)`: drop one trailing copy of `suf`
if present. -/
def goTrimSuf (s suf : String) : String :=
  if suf.data.isSuffixOf s.data then (s.data.take (s.data.length - suf.data.length)).asString
  else s

/-- `bufio.ScanLines` drops one trailing carriage return from a line. -/
def dropCR (s : String) : String := goTrimSuf s "\r"

/-- Model of scanning a string with `bufio.Scanner` / `bufio.ScanLines`:
split at every newline, drop the empty token after a final newline, and strip
one trailing `\r` from each line. -/
def scanLines (b : String) : List String :=
  let parts := goSplit b "\n"
  let parts := if parts.getLast? = some "" then parts.dropLast else parts
  parts.map dropCR

/-! ## The shared pieces of both module versions
    (`splitHeader` and `appendUniq` are textually identical in the two
    files; `Metadata` differs only in the name of the timestamp field,
    `Timestamp` vs `JournalTimestamp`, modelled by the single field
    `Timestamp`.) -/

/-- Go `time.Time` is modelled as an integer instant. -/
abbrev GoTime := Int

/-- `Metadata` holds key details about a message from the body of a journal
envelope. -/
structure Metadata where
  Sender : String := ""
  OnBehalfOf : String := ""
  Subject : String := ""
  MessageID : String := ""
  To : List String := []
  CC : List String := []
  BCC : List String := []
  Timestamp : GoTime := 0
  deriving Repr, DecidableEq

/-- `splitHeader` (identical in both files):
`kv := strings.SplitN(h, ": ", 2); if len(kv) < 2 { return }` — split on the
first `": "` only; report failure when the separator is absent.
`strings.SplitN(h, sep, 2)` is the first field of `strings.Split` paired with
the untouched remainder, recovered here by re-joining the later fields. -/
def splitHeader (h : String) : Option (String × String) :=
  match goSplit h ": " with
  | [] => none
  | [_] => none
  | k :: rest => some (k, String.intercalate ": " rest)

/-- `appendUniq` (identical in both files): lower-case each candidate in
`more` and append it to `start` unless the growing list already holds it.

```
CheckExists:
  for _, m := range more {
    m = strings.ToLower(m)
    for _, s := range start {
      if m == s { continue CheckExists }
    }
    start = append(start, m)
  }
  return start
``` -/
def appendUniq (start : List String) (more : List String) : List String :=
  match more with
  | [] => start
  | m :: rest =>
    let lm := goToLower m
    if lm ∈ start then appendUniq start rest
    else appendUniq (start ++ [lm]) rest

namespace Envelope

/-! ## `src/envelope.go` -/

/-- The recipient-value split shared by the `Recipient`/`To`, `Cc` and `Bcc`
cases of `ParseBody` (envelope.go lines 135, 141, 147): if the value contains
`", Forwarded: "` split on it, otherwise split on `", Expanded: "`. -/
def splitRecipients (v : String) : List String :=
  if goContains v ", Forwarded: " then goSplit v ", Forwarded: "
  else goSplit v ", Expanded: "

/-- One iteration of the `scanner.Scan()` loop of `ParseBody`
(envelope.go lines 120-156): split the line as a header, dispatch on the key.
Unrecognized keys and non-header lines only log and leave `m` unchanged.
The `Bcc` case is written out verbatim: its `", Forwarded: "` branch stores
into `m.CC` (envelope.go line 148). -/
def parseBodyLine (m : Metadata) (line : String) : Metadata :=
  match splitHeader line with
  | none => m
  | some (k, v) =>
    match k with
    | "Sender" => { m with Sender := goToLower v }
    | "On-Behalf-Of" => { m with OnBehalfOf := v }
    | "Subject" => { m with Subject := v }
    | "Message-Id" => { m with MessageID := goTrimSuf (goTrimPre v "<") ">" }
    | "Recipient" | "To" => { m with To := appendUniq m.To (splitRecipients v) }
    | "Cc" => { m with CC := appendUniq m.CC (splitRecipients v) }
    | "Bcc" =>
      if goContains v ", Forwarded: " then
        { m with CC := appendUniq m.CC (goSplit v ", Forwarded: ") }
      else
        { m with BCC := appendUniq m.BCC (goSplit v ", Expanded: ") }
    | _ => m

/-- `ParseBody` extracts key metadata from the envelope body, scanning it
line by line.  The Go function also returns an `error` value, but no
statement in its body ever assigns it, so it is always `nil` and is dropped
from the model. -/
def ParseBody (b : String) : Metadata :=
  (scanLines b).foldl parseBodyLine {}

/-! ### The decoded MIME part tree and `extractParts`

`enmime.MIMEPart` is modelled as a tree node carrying its content type, file
name, raw content and children.  `extractParts` re-reads the raw content of
every `message/rfc822` node with `mail.ReadMessage` and `enmime.ParseMIMEBody`;
those two collaborator calls are modelled by the oracle field `rfc`, which
records, per node, what the collaborators answer for that node's content.
The field is consulted only when the content type is `message/rfc822`. -/

/-- Outcome of `mail.ReadMessage` followed by `enmime.ParseMIMEBody` on a
part's raw content.  `readFail`: `mail.ReadMessage` returns an error;
`decodeFail`: it succeeds but `enmime.ParseMIMEBody` returns an error;
`decoded t`: both succeed and `t` is the decoded root part. -/
inductive RfcOutcome (α : Type) where
  | readFail : RfcOutcome α
  | decodeFail : RfcOutcome α
  | decoded : α → RfcOutcome α
  deriving Repr

/-- A decoded MIME part: content type, file name, raw content, the oracle for
re-reading the content as an RFC2822 message (see `RfcOutcome`), and the
child parts. -/
inductive MIMEPart where
  | mk : (contentType fileName content : String) → (rfc : RfcOutcome MIMEPart) →
         (children : List MIMEPart) → MIMEPart
  deriving Repr

def MIMEPart.contentType : MIMEPart → String
  | .mk ct _ _ _ _ => ct

def MIMEPart.fileName : MIMEPart → String
  | .mk _ fn _ _ _ => fn

def MIMEPart.content : MIMEPart → String
  | .mk _ _ c _ _ => c

/-- Outcome of a run of `extractParts`: either `log.Fatalln` was reached
(which terminates the whole process via `os.Exit(1)`, so nothing is ever
returned to the caller), or the traversal finished and `parts` lists the
parts sent to the collector channel, in emission order. -/
inductive ExtractResult where
  | fatalExit : ExtractResult
  | parts : List MIMEPart → ExtractResult
  deriving Repr

/-- Sequencing of two traversal segments: if the earlier segment (or the
later one) dies with `log.Fatalln` the whole run does; otherwise the emitted
parts are concatenated in order. -/
def ExtractResult.seq : ExtractResult → ExtractResult → ExtractResult
  | .fatalExit, _ => .fatalExit
  | .parts _, .fatalExit => .fatalExit
  | .parts l, .parts r => .parts (l ++ r)

/- `extractParts` (envelope.go lines 94-114).  The Go code iterates over
`enmime.DepthMatchAll(part, always-true)`, which yields `part` and all of its
descendants in depth-first pre-order; the loop body dispatches on each
visited node's content type.  That is the same as handling the node itself
and then traversing its children in order, which is how the recursion is
phrased here (`extractList` walks a child list).  Per node:
`message/rfc822` → re-read the raw content (`log.Fatalln` on read failure;
on MIME-decode failure log and `continue`; otherwise recurse into the
decoded root); `multipart/mixed` → `continue` (emit nothing for the node);
anything else → send the node to the collector channel. -/
mutual
def extractParts (part : MIMEPart) : ExtractResult :=
  match part with
  | .mk ct _ _ rfc children =>
    let hd : ExtractResult :=
      if ct = "message/rfc822" then
        match rfc with
        | .readFail => .fatalExit
        | .decodeFail => .parts []
        | .decoded t => extractParts t
      else if ct = "multipart/mixed" then .parts []
      else .parts [part]
    hd.seq (extractList children)

def extractList (l : List MIMEPart) : ExtractResult :=
  match l with
  | [] => .parts []
  | c :: cs => (extractParts c).seq (extractList cs)
end

/- `specLeaves` follows the specification's words for the expected result of
part extraction: "the overall result is the flattened set of every
non-container, non-rfc822-wrapper leaf across all nesting levels, in
pre-order", where a `message/rfc822` node contributes the recursively
extracted leaves of its re-decoded tree instead of itself and a
`multipart/mixed` node contributes nothing of its own.  It is the
specification-side definition that `extractParts` is compared against. -/
mutual
def specLeaves (p : MIMEPart) : List MIMEPart :=
  match p with
  | .mk ct _ _ rfc children =>
    (if ct = "message/rfc822" then
       match rfc with
       | .decoded t => specLeaves t
       | _ => []
     else if ct = "multipart/mixed" then []
     else [p]) ++ specLeavesList children

def specLeavesList (l : List MIMEPart) : List MIMEPart :=
  match l with
  | [] => []
  | c :: cs => specLeaves c ++ specLeavesList cs
end

/-! ### The orchestrator `Parse` (envelope.go lines 41-92) -/

/-- A `Part` record as assembled by the collector goroutine
(envelope.go line 86). -/
structure GoPart where
  FileName : String
  ContentType : String
  SHA256 : String
  Content : String
  deriving Repr, DecidableEq

/-- The final `Message` of envelope.go.  `Body` is declared in the Go struct
but never assigned by `Parse`, so it stays empty. -/
structure Message where
  md : Metadata
  SHA256 : String
  Body : String := ""
  Parts : List GoPart := []
  deriving Repr, DecidableEq

/-- Result of `enmime.ParseMIMEBody` on the outer message: the decoded text
body and the list of non-text parts. -/
structure EnvBody where
  Text : String
  OtherParts : List MIMEPart

/-- The outer message as returned by `mail.ReadMessage`, with the oracles
for the two collaborator calls made on it: `env.Header.Date()` and
`enmime.ParseMIMEBody(env)`. -/
structure EnvMsg where
  date : Except String GoTime
  body : Except String EnvBody

/-- Outcome of `Parse`: a `Message`, or an error returned to the caller
(`m` is `nil` on every error return), or process termination by
`log.Fatalln` inside `extractParts`. -/
inductive ParseResult where
  | ok : Message → ParseResult
  | error : String → ParseResult
  | processExit : ParseResult
  deriving Repr, DecidableEq

/-- `Parse` (envelope.go lines 41-92).  `sha` is the oracle for
`sha256.Sum256` rendered as a hex string (`fmt.Sprintf("%x", ...)`); `input`
is the outcome of `mail.ReadMessage(in)`.  The wrapped-message attachment is
`b.OtherParts[0]`, required to be the only element; otherwise `Parse` returns
the count error built at envelope.go line 70.  The collector goroutine that
drains `partCollector` into `m.Parts` is modelled by collecting the emitted
parts of `extractParts` in order. -/
def Parse (sha : String → String) (input : Except String EnvMsg) : ParseResult :=
  match input with
  | .error e => .error e
  | .ok env =>
    match env.date with
    | .error e => .error e
    | .ok received =>
      match env.body with
      | .error e => .error e
      | .ok b =>
        let md := ParseBody b.Text
        match b.OtherParts with
        | [w] =>
          match extractParts w with
          | .fatalExit => .processExit
          | .parts ps =>
            .ok { md := { md with Timestamp := received },
                  SHA256 := sha w.content,
                  Parts := ps.map fun p =>
                    { FileName := p.fileName, ContentType := p.contentType,
                      Content := p.content, SHA256 := sha p.content } }
        | l => .error ("Expected 1 MIME message in the envolope, but got " ++ toString l.length)

end Envelope

namespace Part000

/-! ## `src/unnamed/part_000` -/

/-- One iteration of the `scanner.Scan()` loop of `ParseBody`
(part_000 lines 104-127).  This version splits every recipient value on
`" Expanded: "` (no comma, no `Forwarded` dialect), and its `Bcc` case
stores into `m.BCC`. -/
def parseBodyLine (m : Metadata) (line : String) : Metadata :=
  match splitHeader line with
  | none => m
  | some (k, v) =>
    match k with
    | "Sender" => { m with Sender := goToLower v }
    | "On-Behalf-Of" => { m with OnBehalfOf := v }
    | "Subject" => { m with Subject := v }
    | "Message-Id" => { m with MessageID := goTrimSuf (goTrimPre v "<") ">" }
    | "Recipient" | "To" => { m with To := appendUniq m.To (goSplit v " Expanded: ") }
    | "Cc" => { m with CC := appendUniq m.CC (goSplit v " Expanded: ") }
    | "Bcc" => { m with BCC := appendUniq m.BCC (goSplit v " Expanded: ") }
    | _ => m

/-- `ParseBody` of part_000 (lines 101-129); as in envelope.go the returned
`error` is always `nil` and is dropped. -/
def ParseBody (b : String) : Metadata :=
  (scanLines b).foldl parseBodyLine {}

/-- A part as exposed by enmime to part_000's `Parse`, which only reads
`Content()` and `ContentType()`. -/
structure SimplePart where
  contentType : String
  content : String
  deriving Repr, DecidableEq

/-- Result of `enmime.ParseMIMEBody`: text body, non-text parts, attachment
parts. -/
structure MIMEBodyS where
  Text : String
  OtherParts : List SimplePart
  Attachments : List SimplePart
  deriving Repr

/-- The outer message with the oracles for `env.Header.Date()` and
`enmime.ParseMIMEBody(env)`. -/
structure EnvMsgS where
  date : Except String GoTime
  body : Except String MIMEBodyS

/-- Oracles for every collaborator call made by part_000's `Parse`:
`mail.ReadMessage(in)`; `mail.ReadMessage` + `enmime.ParseMIMEBody` on the
wrapped attachment's content (outer `Except` = `mail.ReadMessage`, inner =
`enmime.ParseMIMEBody`); `tika.NewTika("http://localhost:9998/tika")`; and
`t.Parse(content, contentType)`. -/
structure World where
  readMessage : Except String EnvMsgS
  readWrapped : String → Except String (Except String MIMEBodyS)
  tikaNew : Except String Unit
  tikaParse : String → String → Except String String

/-- The final `Message` of part_000. -/
structure MessageS where
  md : Metadata
  BodyText : String
  deriving Repr, DecidableEq

/-- Outcome of part_000's `Parse`: a `Message`, an error return, process
termination by `log.Fatalln` (line 67), or a runtime panic. -/
inductive ParseResultS where
  | ok : MessageS → ParseResultS
  | error : String → ParseResultS
  | processExit : ParseResultS
  | panic : ParseResultS
  deriving Repr, DecidableEq

/-- `Parse` (part_000 lines 32-98), with the control flow exactly as written:

* the wrapped attachment must be the only element of `b.OtherParts`, else
  the count error of line 61 is returned;
* `mail.ReadMessage` failure on the wrapped content hits `log.Fatalln(err)`
  (line 67), which terminates the process;
* at lines 77-79, when `len(b2.Attachments) < 1` an error is assigned to
  `err` but there is **no** `return` statement, so execution continues:
  `tika.NewTika` overwrites `err` (returning its own error if it fails), and
  otherwise `b2.Attachments[0]` is evaluated on the empty slice, which is an
  index-out-of-range runtime panic. -/
def Parse (w : World) : ParseResultS :=
  match w.readMessage with
  | .error e => .error e
  | .ok env =>
    match env.date with
    | .error e => .error e
    | .ok received =>
      match env.body with
      | .error e => .error e
      | .ok b =>
        let md := ParseBody b.Text
        match b.OtherParts with
        | [wp] =>
          match w.readWrapped wp.content with
          | .error _ => .processExit
          | .ok (.error e) => .error e
          | .ok (.ok b2) =>
            match w.tikaNew with
            | .error e => .error e
            | .ok _ =>
              match b2.Attachments with
              | [] => .panic
              | a :: _ =>
                match w.tikaParse a.content a.contentType with
                | .error e => .error e
                | .ok data =>
                  .ok { md := { md with Timestamp := received }, BodyText := data }
        | l => .error ("Expected 1 MIME message in the envolope, but got " ++ toString l.length)

end Part000

/-! ## Helper lemmas about the string model and `appendUniq` -/

/-- `Char.toLower` is idempotent: lower-casing maps the upper-case latin
range into the lower-case range, which the guard then leaves alone. -/
theorem char_toLower_idem (c : Char) : c.toLower.toLower = c.toLower := by
  unfold Char.toLower
  by_cases h : c.toNat ≥ 65 ∧ c.toNat ≤ 90
  · simp only [h, and_self, if_true]
    have key : ∀ n : Nat, 65 ≤ n → n ≤ 90 →
        ¬((Char.ofNat (n + 32)).toNat ≥ 65 ∧ (Char.ofNat (n + 32)).toNat ≤ 90) := by
      intro n hn1 hn2 hcon
      interval_cases n <;> revert hcon <;> decide
    simp [key c.toNat h.1 h.2]
  · simp [h]

/-- `goToLower` is idempotent. -/
theorem goToLower_idem (s : String) : goToLower (goToLower s) = goToLower s := by
  show ((s.data.map Char.toLower).map Char.toLower).asString = (s.data.map Char.toLower).asString
  congr 1
  rw [List.map_map]
  exact List.map_congr_left fun c _ => char_toLower_idem c

/-- `appendUniq` is the identity when every candidate's lower-casing is
already present in the existing list. -/
theorem appendUniq_of_mem (more start : List String)
    (h : ∀ m ∈ more, goToLower m ∈ start) : appendUniq start more = start := by
  induction more with
  | nil => rfl
  | cons m rest ih =>
    have hm : goToLower m ∈ start := h m (List.mem_cons_self m rest)
    simp only [appendUniq]
    rw [if_pos hm]
    exact ih fun x hx => h x (List.mem_cons_of_mem m hx)

/-- When no candidate's lower-casing collides with the existing list nor with
another candidate, `appendUniq` appends all of them, lower-cased, in order. -/
theorem appendUniq_of_disjoint (more : List String) : ∀ (start : List String),
    (∀ m ∈ more, goToLower m ∉ start) → (more.map goToLower).Nodup →
    appendUniq start more = start ++ more.map goToLower := by
  induction more with
  | nil => intro start _ _; simp [appendUniq]
  | cons m rest ih =>
    intro start hdisj hnd
    have hm : goToLower m ∉ start := hdisj m (List.mem_cons_self m rest)
    rw [List.map_cons] at hnd
    obtain ⟨hmrest, hndrest⟩ := List.nodup_cons.mp hnd
    simp only [appendUniq]
    rw [if_neg hm]
    rw [ih (start ++ [goToLower m]) ?_ hndrest]
    · simp
    · intro x hx
      simp only [List.mem_append, List.mem_singleton]
      push_neg
      refine ⟨hdisj x (List.mem_cons_of_mem m hx), fun hEq => hmrest ?_⟩
      exact hEq ▸ List.mem_map_of_mem goToLower hx

/-- `appendUniq` only ever appends (lower-casings of candidates) after the
untouched existing list. -/
theorem appendUniq_append (more : List String) : ∀ (start : List String),
    ∃ t, appendUniq start more = start ++ t ∧ ∀ x ∈ t, ∃ y ∈ more, x = goToLower y := by
  induction more with
  | nil => intro start; exact ⟨[], by simp [appendUniq], by simp⟩
  | cons m rest ih =>
    intro start
    simp only [appendUniq]
    by_cases hm : goToLower m ∈ start
    · rw [if_pos hm]
      obtain ⟨t, ht, hmem⟩ := ih start
      refine ⟨t, ht, fun x hx => ?_⟩
      obtain ⟨y, hy, he⟩ := hmem x hx
      exact ⟨y, List.mem_cons_of_mem m hy, he⟩
    · rw [if_neg hm]
      obtain ⟨t, ht, hmem⟩ := ih (start ++ [goToLower m])
      refine ⟨goToLower m :: t, by simpa using ht, fun x hx => ?_⟩
      rcases List.mem_cons.mp hx with rfl | hx
      · exact ⟨m, List.mem_cons_self m rest, rfl⟩
      · obtain ⟨y, hy, he⟩ := hmem x hx
        exact ⟨y, List.mem_cons_of_mem m hy, he⟩

/-! ## Claims about `appendUniq` (the Recipient Normalizer) -/

/-- C7: normalization lower-cases each candidate and appends it only when the
growing result does not already hold it (first conjunct, the step equation of
`appendUniq`); consequently a candidate list whose members are pairwise
distinct case-insensitively, applied to an empty sequence, comes out exactly
as its lower-casing: `N` entries, all lower-cased, in first-seen order
(second conjunct). -/
theorem C7_normalize_distinct_candidates :
    (∀ (start : List String) (m : String) (rest : List String),
        appendUniq start (m :: rest) =
          if goToLower m ∈ start then appendUniq start rest
          else appendUniq (start ++ [goToLower m]) rest) ∧
    (∀ more : List String, (more.map goToLower).Nodup →
        appendUniq [] more = more.map goToLower) := by
  constructor
  · intro start m rest
    simp only [appendUniq]
  · intro more h
    simpa using appendUniq_of_disjoint more [] (by simp) h

/-- C7 witness: two distinct case-insensitive addresses on an empty sequence
come out lower-cased, in order. -/
theorem C7_normalize_distinct_candidates_witness :
    appendUniq [] ["A@x.com", "b@y.com"] = ["a@x.com", "b@y.com"] := by
  rw [C7_normalize_distinct_candidates.2 ["A@x.com", "b@y.com"] (by decide)]
  decide

/-- C9: normalizing an already-normalized sequence (all entries lower-cased,
pairwise distinct) against itself returns it unchanged. -/
theorem C9_appendUniq_idempotent (s : List String)
    (hlow : ∀ x ∈ s, goToLower x = x) (_hnd : s.Nodup) :
    appendUniq s s = s :=
  appendUniq_of_mem s s fun m hm => by rw [hlow m hm]; exact hm

/-- C9 witness: a concrete normalized sequence is unchanged by
self-normalization. -/
theorem C9_appendUniq_idempotent_witness :
    appendUniq ["a@x.com", "b@y.com"] ["a@x.com", "b@y.com"] = ["a@x.com", "b@y.com"] :=
  C9_appendUniq_idempotent ["a@x.com", "b@y.com"] (by decide) (by decide)

/-- C10: `appendUniq start more` begins with exactly `start`, unchanged and
in order; everything after it is the lower-casing of some candidate. -/
theorem C10_appendUniq_preserves_existing (start more : List String) :
    ∃ t, appendUniq start more = start ++ t ∧ ∀ x ∈ t, ∃ y ∈ more, x = goToLower y :=
  appendUniq_append more start

/-! ## Claims about `ParseBody` (the Envelope Metadata Extractor) -/

/-- C1: in `src/envelope.go`, a `Bcc` line whose value contains the
`", Forwarded: "` marker is split and normalized into the `CC` sequence, not
`BCC` (envelope.go line 148), contradicting the claim that `Bcc` lines are
always normalized into `bcc` and leave `cc` unchanged.  Evaluation of the
embedded code at the failing input. -/
theorem C1_bcc_forwarded_value_lands_in_cc :
    (Envelope.ParseBody "Bcc: a@x.com, Forwarded: b@x.com\n").CC = ["a@x.com", "b@x.com"] ∧
    (Envelope.ParseBody "Bcc: a@x.com, Forwarded: b@x.com\n").BCC = [] := by
  constructor <;> decide

/-- C4 (amended): the dialect-detecting recipient extraction the claim
describes is the envelope.go version only.  There, `", Forwarded: "` wins
whenever it occurs, otherwise `", Expanded: "` is used, the split happens
before normalizing (first two conjuncts), and the spec's scenario holds:
`"Sender: a@x.com\nTo: a@x.com, Expanded: b@x.com\n"` parses to sender
`"a@x.com"` and to `["a@x.com", "b@x.com"]` (third conjunct).  The part_000
version performs no dialect detection: it splits every recipient value on
`" Expanded: "` only, so the same scenario body yields the trailing-comma
entries `["a@x.com,", "b@x.com"]` (fourth conjunct) and a value carrying the
`", Forwarded: "` marker is not split at all — it survives as a single
lower-cased entry (fifth conjunct). -/
theorem C4_recipient_dialect_detection :
    (∀ v, goContains v ", Forwarded: " = true →
        Envelope.splitRecipients v = goSplit v ", Forwarded: ") ∧
    (∀ v, goContains v ", Forwarded: " = false →
        Envelope.splitRecipients v = goSplit v ", Expanded: ") ∧
    Envelope.ParseBody "Sender: a@x.com\nTo: a@x.com, Expanded: b@x.com\n" =
      { Sender := "a@x.com", To := ["a@x.com", "b@x.com"] } ∧
    Part000.ParseBody "Sender: a@x.com\nTo: a@x.com, Expanded: b@x.com\n" =
      { Sender := "a@x.com", To := ["a@x.com,", "b@x.com"] } ∧
    (Part000.ParseBody "To: a@x.com, Forwarded: b@x.com\n").To =
      ["a@x.com, forwarded: b@x.com"] := by
  refine ⟨fun v h => ?_, fun v h => ?_, by decide, by decide, by decide⟩
  · simp [Envelope.splitRecipients, h]
  · simp [Envelope.splitRecipients, h]

/-- C4 counterexample: the claim also cites part_000's `ParseBody`
(lines 118-123), which does no dialect detection and fails the claim's own
scenario: the value `"a@x.com, Expanded: b@x.com"` is split on
`" Expanded: "` into `["a@x.com,", "b@x.com"]` — a trailing-comma entry, not
the claimed `["a@x.com", "b@x.com"]`. -/
theorem C4_part000_scenario_refutes :
    (Part000.ParseBody "Sender: a@x.com\nTo: a@x.com, Expanded: b@x.com\n").To =
      ["a@x.com,", "b@x.com"] ∧
    (Part000.ParseBody "Sender: a@x.com\nTo: a@x.com, Expanded: b@x.com\n").To ≠
      ["a@x.com", "b@x.com"] := by
  constructor <;> decide

/-- C4 witness: on a value carrying both markers, the `Forwarded` dialect
takes precedence. -/
theorem C4_recipient_dialect_detection_witness :
    Envelope.splitRecipients "a@x.com, Forwarded: b@x.com, Expanded: c@x.com" =
      ["a@x.com", "b@x.com, Expanded: c@x.com"] := by
  rw [C4_recipient_dialect_detection.1 "a@x.com, Forwarded: b@x.com, Expanded: c@x.com" (by decide)]
  decide

/-- No two entries of the list are equal after case folding. -/
def caseInsensitiveDistinct (l : List String) : Prop :=
  l.Pairwise fun a b => goToLower a ≠ goToLower b

/-- The representation invariant `appendUniq` actually maintains: every entry
is lower-cased already, and no entry repeats. -/
def normalizedList (l : List String) : Prop :=
  (∀ x ∈ l, goToLower x = x) ∧ l.Nodup

/-- All three recipient sequences of a `Metadata` are normalized. -/
def normalizedState (m : Metadata) : Prop :=
  normalizedList m.To ∧ normalizedList m.CC ∧ normalizedList m.BCC

theorem normalizedList_caseInsensitiveDistinct (l : List String)
    (h : normalizedList l) : caseInsensitiveDistinct l := by
  obtain ⟨hfix, hnd⟩ := h
  refine hnd.imp_of_mem ?_
  intro a b ha hb hne
  rw [hfix a ha, hfix b hb]
  exact hne

theorem appendUniq_normalized (more : List String) : ∀ (start : List String),
    normalizedList start → normalizedList (appendUniq start more) := by
  induction more with
  | nil => intro start h; exact h
  | cons m rest ih =>
    intro start h
    simp only [appendUniq]
    by_cases hm : goToLower m ∈ start
    · rw [if_pos hm]; exact ih start h
    · rw [if_neg hm]
      refine ih (start ++ [goToLower m]) ⟨?_, ?_⟩
      · intro x hx
        rcases List.mem_append.mp hx with hx | hx
        · exact h.1 x hx
        · rw [List.mem_singleton.mp hx]
          exact goToLower_idem m
      · simp [List.nodup_append, h.2, hm]

theorem parseBodyLine_normalized (m : Metadata) (line : String)
    (h : normalizedState m) : normalizedState (Envelope.parseBodyLine m line) := by
  obtain ⟨hTo, hCC, hBCC⟩ := h
  unfold Envelope.parseBodyLine
  split
  · exact ⟨hTo, hCC, hBCC⟩
  · split <;>
      first
        | exact ⟨hTo, hCC, hBCC⟩
        | exact ⟨appendUniq_normalized _ _ hTo, hCC, hBCC⟩
        | exact ⟨hTo, appendUniq_normalized _ _ hCC, hBCC⟩
        | exact ⟨hTo, hCC, appendUniq_normalized _ _ hBCC⟩
        | (split <;>
            first
              | exact ⟨hTo, appendUniq_normalized _ _ hCC, hBCC⟩
              | exact ⟨hTo, hCC, appendUniq_normalized _ _ hBCC⟩)

theorem foldl_parseBodyLine_normalized (lines : List String) :
    ∀ (m : Metadata), normalizedState m →
      normalizedState (lines.foldl Envelope.parseBodyLine m) := by
  induction lines with
  | nil => intro m h; exact h
  | cons line rest ih =>
    intro m h
    exact ih (Envelope.parseBodyLine m line) (parseBodyLine_normalized m line h)

/-- C8: every recipient-appending operation of the scan preserves the
normalization invariant (first two conjuncts); the invariant implies that no
two entries of a sequence are equal case-insensitively (third conjunct); and
after `ParseBody` finishes each of `To`, `CC`, `BCC` contains no two entries
that are equal case-insensitively (fourth conjunct). -/
theorem C8_recipient_sequences_distinct :
    (∀ (start more : List String), normalizedList start →
        normalizedList (appendUniq start more)) ∧
    (∀ (m : Metadata) (line : String), normalizedState m →
        normalizedState (Envelope.parseBodyLine m line)) ∧
    (∀ l : List String, normalizedList l → caseInsensitiveDistinct l) ∧
    (∀ b : String,
        caseInsensitiveDistinct (Envelope.ParseBody b).To ∧
        caseInsensitiveDistinct (Envelope.ParseBody b).CC ∧
        caseInsensitiveDistinct (Envelope.ParseBody b).BCC) := by
  have hempty : normalizedState ({} : Metadata) :=
    ⟨⟨by simp, List.nodup_nil⟩, ⟨by simp, List.nodup_nil⟩, ⟨by simp, List.nodup_nil⟩⟩
  refine ⟨fun start more h => appendUniq_normalized more start h,
          fun m line h => parseBodyLine_normalized m line h,
          fun l h => normalizedList_caseInsensitiveDistinct l h,
          fun b => ?_⟩
  have h := foldl_parseBodyLine_normalized (scanLines b) {} hempty
  exact ⟨normalizedList_caseInsensitiveDistinct _ h.1,
         normalizedList_caseInsensitiveDistinct _ h.2.1,
         normalizedList_caseInsensitiveDistinct _ h.2.2⟩

/-- C8 witness: the invariant-preservation conjuncts applied at concrete
inputs, and the final invariant on a concrete body. -/
theorem C8_recipient_sequences_distinct_witness :
    normalizedList (appendUniq [] ["A@x.com", "a@x.com"]) ∧
    caseInsensitiveDistinct (Envelope.ParseBody "To: A@x.com, Expanded: a@x.com\n").To :=
  ⟨C8_recipient_sequences_distinct.1 [] ["A@x.com", "a@x.com"] ⟨by simp, List.nodup_nil⟩,
   (C8_recipient_sequences_distinct.2.2.2 "To: A@x.com, Expanded: a@x.com\n").1⟩

/-! ## Claims about the orchestrators and `extractParts` -/

/-- C2: evaluation of the embedded code at the inputs the claim speaks
about.  First conjunct: at a nested `message/rfc822` part whose RFC2822 read
fails, `extractParts` reaches `log.Fatalln` (envelope.go line 100), i.e. the
process is terminated — the failure is *not* surfaced to the caller as an
error value.  Second conjunct: through `Parse`, such an input ends in
process termination rather than an error return.  Third conjunct: when the
RFC2822 read succeeds but MIME-decoding fails, the subtree is skipped and
traversal continues with the sibling (this half of the claim matches the
code). -/
theorem C2_rfc822_read_failure_exits_process :
    Envelope.extractParts (.mk "message/rfc822" "" "bad" .readFail []) =
      .fatalExit ∧
    Envelope.Parse (fun _ => "h")
      (.ok { date := .ok 0,
             body := .ok { Text := "",
                           OtherParts := [.mk "message/rfc822" "" "bad" .readFail []] } }) =
      .processExit ∧
    Envelope.extractParts
      (.mk "multipart/mixed" "" "" .readFail
        [ .mk "message/rfc822" "" "bad" .decodeFail [],
          .mk "text/plain" "a.txt" "hello" .readFail [] ]) =
      .parts [ .mk "text/plain" "a.txt" "hello" .readFail [] ] :=
  ⟨rfl, rfl, rfl⟩

/-- C3: evaluation of part_000's `Parse` at a failing input.  The outer
message reads fine, the wrapped message decodes with zero attachments, and
`tika.NewTika` succeeds; the `len(b2.Attachments) < 1` check at part_000
line 77 assigns an error but does not `return`, so execution continues to
`b2.Attachments[0]` and panics instead of returning an error. -/
theorem C3_zero_attachments_panics :
    Part000.Parse
      { readMessage := .ok
          { date := .ok 0,
            body := .ok
              { Text := "",
                OtherParts := [{ contentType := "message/rfc822", content := "raw" }],
                Attachments := [] } },
        readWrapped := fun _ => .ok (.ok { Text := "", OtherParts := [], Attachments := [] }),
        tikaNew := .ok (),
        tikaParse := fun _ _ => .ok "" } = .panic :=
  rfl

/-- C6: in both module versions, once the stages before the count check
succeed, an outer message whose non-text part list has any length other
than one makes `Parse` return an error naming the actual count, and no
`Message`. -/
theorem C6_unexpected_attachment_count (sha : String → String)
    (env : Envelope.EnvMsg) (d : GoTime) (b : Envelope.EnvBody)
    (w : Part000.World) (env2 : Part000.EnvMsgS) (d2 : GoTime) (b2 : Part000.MIMEBodyS)
    (hd : env.date = .ok d) (hb : env.body = .ok b)
    (hn : b.OtherParts.length ≠ 1)
    (hr2 : w.readMessage = .ok env2) (hd2 : env2.date = .ok d2)
    (hb2 : env2.body = .ok b2) (hn2 : b2.OtherParts.length ≠ 1) :
    Envelope.Parse sha (.ok env) =
      .error ("Expected 1 MIME message in the envolope, but got " ++
        toString b.OtherParts.length) ∧
    Part000.Parse w =
      .error ("Expected 1 MIME message in the envolope, but got " ++
        toString b2.OtherParts.length) := by
  constructor
  · simp only [Envelope.Parse, hd, hb]
    rcases hOP : b.OtherParts with _ | ⟨x, _ | ⟨y, rest⟩⟩
    · simp [hOP]
    · exact absurd (by rw [hOP]; rfl) hn
    · simp [hOP]
  · simp only [Part000.Parse, hr2, hd2, hb2]
    rcases hOP : b2.OtherParts with _ | ⟨x, _ | ⟨y, rest⟩⟩
    · simp [hOP]
    · exact absurd (by rw [hOP]; rfl) hn2
    · simp [hOP]

/-- C6 witness: a two-part outer body (envelope.go version) and a zero-part
outer body (part_000 version) produce the count errors naming 2 and 0. -/
theorem C6_unexpected_attachment_count_witness :
    Envelope.Parse (fun _ => "")
      (.ok { date := .ok 0,
             body := .ok { Text := "",
                           OtherParts := [.mk "text/plain" "" "" .readFail [],
                                          .mk "text/html" "" "" .readFail []] } }) =
      .error "Expected 1 MIME message in the envolope, but got 2" ∧
    Part000.Parse
      { readMessage := .ok { date := .ok 0,
                             body := .ok { Text := "", OtherParts := [], Attachments := [] } },
        readWrapped := fun _ => .error "x",
        tikaNew := .error "x",
        tikaParse := fun _ _ => .error "x" } =
      .error "Expected 1 MIME message in the envolope, but got 0" := by
  have h := C6_unexpected_attachment_count (fun _ => "")
    { date := .ok 0,
      body := .ok { Text := "",
                    OtherParts := [.mk "text/plain" "" "" .readFail [],
                                   .mk "text/html" "" "" .readFail []] } }
    0
    { Text := "",
      OtherParts := [.mk "text/plain" "" "" .readFail [],
                     .mk "text/html" "" "" .readFail []] }
    { readMessage := .ok { date := .ok 0,
                           body := .ok { Text := "", OtherParts := [], Attachments := [] } },
      readWrapped := fun _ => .error "x",
      tikaNew := .error "x",
      tikaParse := fun _ _ => .error "x" }
    { date := .ok 0, body := .ok { Text := "", OtherParts := [], Attachments := [] } }
    0
    { Text := "", OtherParts := [], Attachments := [] }
    rfl rfl (by decide) rfl rfl rfl (by decide)
  exact h

namespace Envelope

theorem seq_eq_parts {a b : ExtractResult} {l : List MIMEPart}
    (h : a.seq b = .parts l) :
    ∃ la lb, a = .parts la ∧ b = .parts lb ∧ l = la ++ lb := by
  cases a with
  | fatalExit => exact absurd h (by simp [ExtractResult.seq])
  | parts la =>
    cases b with
    | fatalExit => exact absurd h (by simp [ExtractResult.seq])
    | parts lb =>
      simp only [ExtractResult.seq] at h
      injection h with h
      exact ⟨la, lb, rfl, rfl, h.symm⟩

mutual

theorem extractParts_spec (p : MIMEPart) (l : List MIMEPart)
    (h : extractParts p = .parts l) : l = specLeaves p := by
  cases p with
  | mk ct fn co rfc children =>
    cases rfc with
    | readFail =>
      simp only [extractParts] at h
      simp only [specLeaves]
      by_cases hct : ct = "message/rfc822"
      · rw [if_pos hct] at h
        exact absurd h (by simp [ExtractResult.seq])
      · rw [if_neg hct] at h
        rw [if_neg hct]
        by_cases hmx : ct = "multipart/mixed"
        · rw [if_pos hmx] at h
          rw [if_pos hmx]
          obtain ⟨la, lb, ha, hb, rfl⟩ := seq_eq_parts h
          injection ha with ha
          subst ha
          rw [extractList_spec children lb hb]
        · rw [if_neg hmx] at h
          rw [if_neg hmx]
          obtain ⟨la, lb, ha, hb, rfl⟩ := seq_eq_parts h
          injection ha with ha
          subst ha
          rw [extractList_spec children lb hb]
    | decodeFail =>
      simp only [extractParts] at h
      simp only [specLeaves]
      by_cases hct : ct = "message/rfc822"
      · rw [if_pos hct] at h
        rw [if_pos hct]
        obtain ⟨la, lb, ha, hb, rfl⟩ := seq_eq_parts h
        injection ha with ha
        subst ha
        rw [extractList_spec children lb hb]
      · rw [if_neg hct] at h
        rw [if_neg hct]
        by_cases hmx : ct = "multipart/mixed"
        · rw [if_pos hmx] at h
          rw [if_pos hmx]
          obtain ⟨la, lb, ha, hb, rfl⟩ := seq_eq_parts h
          injection ha with ha
          subst ha
          rw [extractList_spec children lb hb]
        · rw [if_neg hmx] at h
          rw [if_neg hmx]
          obtain ⟨la, lb, ha, hb, rfl⟩ := seq_eq_parts h
          injection ha with ha
          subst ha
          rw [extractList_spec children lb hb]
    | decoded t =>
      simp only [extractParts] at h
      simp only [specLeaves]
      by_cases hct : ct = "message/rfc822"
      · rw [if_pos hct] at h
        rw [if_pos hct]
        obtain ⟨la, lb, ha, hb, rfl⟩ := seq_eq_parts h
        rw [extractParts_spec t la ha, extractList_spec children lb hb]
      · rw [if_neg hct] at h
        rw [if_neg hct]
        by_cases hmx : ct = "multipart/mixed"
        · rw [if_pos hmx] at h
          rw [if_pos hmx]
          obtain ⟨la, lb, ha, hb, rfl⟩ := seq_eq_parts h
          injection ha with ha
          subst ha
          rw [extractList_spec children lb hb]
        · rw [if_neg hmx] at h
          rw [if_neg hmx]
          obtain ⟨la, lb, ha, hb, rfl⟩ := seq_eq_parts h
          injection ha with ha
          subst ha
          rw [extractList_spec children lb hb]

theorem extractList_spec (ps : List MIMEPart) (l : List MIMEPart)
    (h : extractList ps = .parts l) : l = specLeavesList ps := by
  cases ps with
  | nil =>
    simp only [extractList] at h
    injection h with h
    rw [← h]
    simp only [specLeavesList]
  | cons c cs =>
    simp only [extractList] at h
    obtain ⟨la, lb, ha, hb, rfl⟩ := seq_eq_parts h
    rw [extractParts_spec c la ha, extractList_spec cs lb hb]
    simp only [specLeavesList]

end

mutual

theorem specLeaves_types (p : MIMEPart) :
    ∀ q ∈ specLeaves p,
      q.contentType ≠ "message/rfc822" ∧ q.contentType ≠ "multipart/mixed" := by
  cases p with
  | mk ct fn co rfc children =>
    intro q hq
    cases rfc with
    | readFail =>
      simp only [specLeaves] at hq
      rcases List.mem_append.mp hq with hq | hq
      · by_cases hct : ct = "message/rfc822"
        · rw [if_pos hct] at hq
          simp at hq
        · rw [if_neg hct] at hq
          by_cases hmx : ct = "multipart/mixed"
          · rw [if_pos hmx] at hq
            simp at hq
          · rw [if_neg hmx] at hq
            rw [List.mem_singleton.mp hq]
            exact ⟨hct, hmx⟩
      · exact specLeavesList_types children q hq
    | decodeFail =>
      simp only [specLeaves] at hq
      rcases List.mem_append.mp hq with hq | hq
      · by_cases hct : ct = "message/rfc822"
        · rw [if_pos hct] at hq
          simp at hq
        · rw [if_neg hct] at hq
          by_cases hmx : ct = "multipart/mixed"
          · rw [if_pos hmx] at hq
            simp at hq
          · rw [if_neg hmx] at hq
            rw [List.mem_singleton.mp hq]
            exact ⟨hct, hmx⟩
      · exact specLeavesList_types children q hq
    | decoded t =>
      simp only [specLeaves] at hq
      rcases List.mem_append.mp hq with hq | hq
      · by_cases hct : ct = "message/rfc822"
        · rw [if_pos hct] at hq
          exact specLeaves_types t q hq
        · rw [if_neg hct] at hq
          by_cases hmx : ct = "multipart/mixed"
          · rw [if_pos hmx] at hq
            simp at hq
          · rw [if_neg hmx] at hq
            rw [List.mem_singleton.mp hq]
            exact ⟨hct, hmx⟩
      · exact specLeavesList_types children q hq

theorem specLeavesList_types (ps : List MIMEPart) :
    ∀ q ∈ specLeavesList ps,
      q.contentType ≠ "message/rfc822" ∧ q.contentType ≠ "multipart/mixed" := by
  cases ps with
  | nil => intro q hq; simp [specLeavesList] at hq
  | cons c cs =>
    intro q hq
    simp only [specLeavesList] at hq
    rcases List.mem_append.mp hq with hq | hq
    · exact specLeaves_types c q hq
    · exact specLeavesList_types cs q hq

end

end Envelope

/-- C5: whenever `extractParts` finishes without hitting `log.Fatalln`, the
emitted sequence equals the specification's characterization `specLeaves` —
the non-container, non-rfc822-wrapper leaves across all nesting levels
(descendants of re-decoded sub-messages included, recursively) in pre-order
— and in particular no emitted part is typed `message/rfc822` or
`multipart/mixed`. -/
theorem C5_extract_parts_flattened (p : Envelope.MIMEPart) (l : List Envelope.MIMEPart)
    (h : Envelope.extractParts p = .parts l) :
    l = Envelope.specLeaves p ∧
    ∀ q ∈ l, q.contentType ≠ "message/rfc822" ∧ q.contentType ≠ "multipart/mixed" := by
  have h1 := Envelope.extractParts_spec p l h
  exact ⟨h1, fun q hq => Envelope.specLeaves_types p q (h1 ▸ hq)⟩

/-- C5 witness: a mixed container holding a plain leaf and a re-wrapped
`message/rfc822` sub-message with two further leaves extracts to exactly the
three leaves, in pre-order, with no container or wrapper node emitted. -/
theorem C5_extract_parts_flattened_witness :
    [ Envelope.MIMEPart.mk "text/plain" "a.txt" "hello" .readFail [],
      Envelope.MIMEPart.mk "text/plain" "b.txt" "x" .readFail [],
      Envelope.MIMEPart.mk "application/pdf" "c.pdf" "y" .readFail [] ] =
      Envelope.specLeaves
        (.mk "multipart/mixed" "" "" .readFail
          [ .mk "text/plain" "a.txt" "hello" .readFail [],
            .mk "message/rfc822" "" "raw" (.decoded (.mk "multipart/mixed" "" "" .readFail
              [ .mk "text/plain" "b.txt" "x" .readFail [],
                .mk "application/pdf" "c.pdf" "y" .readFail [] ])) [] ]) ∧
    ∀ q ∈ [ Envelope.MIMEPart.mk "text/plain" "a.txt" "hello" .readFail [],
            Envelope.MIMEPart.mk "text/plain" "b.txt" "x" .readFail [],
            Envelope.MIMEPart.mk "application/pdf" "c.pdf" "y" .readFail [] ],
      q.contentType ≠ "message/rfc822" ∧ q.contentType ≠ "multipart/mixed" :=
  C5_extract_parts_flattened
    (.mk "multipart/mixed" "" "" .readFail
      [ .mk "text/plain" "a.txt" "hello" .readFail [],
        .mk "message/rfc822" "" "raw" (.decoded (.mk "multipart/mixed" "" "" .readFail
          [ .mk "text/plain" "b.txt" "x" .readFail [],
            .mk "application/pdf" "c.pdf" "y" .readFail [] ])) [] ])
    [ Envelope.MIMEPart.mk "text/plain" "a.txt" "hello" .readFail [],
      Envelope.MIMEPart.mk "text/plain" "b.txt" "x" .readFail [],
      Envelope.MIMEPart.mk "application/pdf" "c.pdf" "y" .readFail [] ]
    rfl

